import Mathlib

/-!
Verification of the cribbage hand scorer in `cribPart.js`.

The scoring core of the repository is shallowly embedded below.  JavaScript
cards are objects `{ rank, suit }` whose `rank` is one of the 13 strings in
`RANKS` and whose `suit` is one of the 4 strings in `SUITS`; these two valid
alphabets are abstracted into the inductive types `Rank` and `Suit`.  An
array slot that may hold `null` is modelled as `Option Card`, and a
JavaScript `TypeError` thrown by dereferencing a field of `null` is modelled
as `Except.error ()`, so each sub-evaluator takes a `List (Option Card)` and
returns an `Except Unit` result, mirroring exactly where the source would
throw (including the short-circuiting of `Array.prototype.every` and
`Array.prototype.find`).
-/

/-- The 13 valid rank symbols of `RANKS` in `cribPart.js`. -/
inductive Rank where
  | A | r2 | r3 | r4 | r5 | r6 | r7 | r8 | r9 | r10 | J | Q | K
deriving DecidableEq, Repr, Fintype

/-- The 4 valid suit symbols of `SUITS` in `cribPart.js`. -/
inductive Suit where
  | S | H | D | C
deriving DecidableEq, Repr, Fintype

/-- A playing card `{ rank, suit }` (cribPart.js line 4). -/
structure Card where
  rank : Rank
  suit : Suit
deriving DecidableEq, Repr

/-- The rank strings of the `RANKS` constant (cribPart.js line 5). -/
def RANKS : List String :=
  ["A", "2", "3", "4", "5", "6", "7", "8", "9", "10", "J", "Q", "K"]

/-- The suit strings of the `SUITS` constant (cribPart.js line 6). -/
def SUITS : List String := ["♠", "♥", "♦", "♣"]

/-- The string a `Rank` prints as (the member of `RANKS` it abstracts). -/
def rankStr : Rank → String
  | .A => "A" | .r2 => "2" | .r3 => "3" | .r4 => "4" | .r5 => "5"
  | .r6 => "6" | .r7 => "7" | .r8 => "8" | .r9 => "9" | .r10 => "10"
  | .J => "J" | .Q => "Q" | .K => "K"

/-- The string a `Suit` prints as (the member of `SUITS` it abstracts). -/
def suitStr : Suit → String
  | .S => "♠" | .H => "♥" | .D => "♦" | .C => "♣"

/-- `getCardValue` (cribPart.js lines 17-21): value for fifteens,
A=1, 2-10 face value, J/Q/K=10. -/
def getCardValue (card : Card) : Nat :=
  match card.rank with
  | .A => 1
  | .J => 10 | .Q => 10 | .K => 10
  | .r2 => 2 | .r3 => 3 | .r4 => 4 | .r5 => 5 | .r6 => 6
  | .r7 => 7 | .r8 => 8 | .r9 => 9 | .r10 => 10

/-- `getNumericRank` (cribPart.js lines 96-102): value for run detection,
A=1, 2-10 face value, J=11, Q=12, K=13. -/
def getNumericRank (card : Card) : Nat :=
  match card.rank with
  | .A => 1
  | .J => 11 | .Q => 12 | .K => 13
  | .r2 => 2 | .r3 => 3 | .r4 => 4 | .r5 => 5 | .r6 => 6
  | .r7 => 7 | .r8 => 8 | .r9 => 9 | .r10 => 10

/-- `formatCard` (cribPart.js lines 35-38): `''` for an absent card,
otherwise the rank string followed by the suit string. -/
def formatCard : Option Card → String
  | none => ""
  | some card => rankStr card.rank ++ suitStr card.suit

/-- Lookup of a rank string in `RANKS`, producing the abstract `Rank`.
`parseCard` checks `RANKS.includes(rank)` and keeps the string; here a
successful lookup is exactly membership in the valid alphabet. -/
def rankOfString (s : String) : Option Rank :=
  if s = "A" then some .A
  else if s = "2" then some .r2
  else if s = "3" then some .r3
  else if s = "4" then some .r4
  else if s = "5" then some .r5
  else if s = "6" then some .r6
  else if s = "7" then some .r7
  else if s = "8" then some .r8
  else if s = "9" then some .r9
  else if s = "10" then some .r10
  else if s = "J" then some .J
  else if s = "Q" then some .Q
  else if s = "K" then some .K
  else none

/-- Lookup of a suit string in `SUITS`, producing the abstract `Suit`. -/
def suitOfString (s : String) : Option Suit :=
  if s = "♠" then some .S
  else if s = "♥" then some .H
  else if s = "♦" then some .D
  else if s = "♣" then some .C
  else none

/-- `cardString.slice(0, -1)`: the token without its final character. -/
def rankPart (s : String) : String := String.mk s.toList.dropLast

/-- `cardString.slice(-1)`: the final character of the token (the argument
is only used on non-empty tokens; the default is irrelevant there). -/
def suitPart (s : String) : String := String.mk [s.toList.getLastD ' ']

/-- `parseCard` (cribPart.js lines 24-32): `null` for a missing or empty
token, otherwise split off the last character as the suit, look both parts
up in the valid alphabets, and fail to `null` if either is unknown. -/
def parseCard (cardString : Option String) : Option Card :=
  match cardString with
  | none => none
  | some s =>
    if s = "" then none
    else
      match rankOfString (rankPart s), suitOfString (suitPart s) with
      | some r, some su => some ⟨r, su⟩
      | _, _ => none

/-- Result object of `scoreFifteens`. -/
structure FifteensScore where
  points : Nat
  combinations : List (List String)
deriving DecidableEq, Repr

/-- Result object of `scorePairs`. -/
structure PairsScore where
  points : Nat
  pairs : List String
deriving DecidableEq, Repr

/-- One entry of the `runs` list returned by `scoreRuns`. -/
structure RunEntry where
  length : Nat
  multiplier : Nat
  cards : List String
deriving DecidableEq, Repr

/-- Result object of `scoreRuns`. -/
structure RunsScore where
  points : Nat
  runs : List RunEntry
deriving DecidableEq, Repr

/-- Result object of `scoreFlush`. -/
structure FlushScore where
  points : Nat
deriving DecidableEq, Repr

/-- Result object of `scoreNobs` (the `card` field is present only on a
hit; modelled as an `Option`). -/
structure NobsScore where
  points : Nat
  card : Option String
deriving DecidableEq, Repr

/-- Result object of `scoreHand`. -/
structure Report where
  total : Nat
  fifteens : FifteensScore
  pairs : PairsScore
  runs : RunsScore
  flush : FlushScore
  nobs : NobsScore
deriving DecidableEq, Repr

/-- The sub-list of cards whose index bit is set in `mask`
(`mask & (1 << i)` in the loop of cribPart.js lines 50-55; the head of the
list is index 0, i.e. bit 0). -/
def maskCombo : Nat → List (Option Card) → List (Option Card)
  | _, [] => []
  | m, oc :: rest => (if m % 2 = 1 then [oc] else []) ++ maskCombo (m / 2) rest

/-- Summing `getCardValue` over a combination; dereferencing an absent card
(`getCardValue(null)`) throws, modelled by `Except.error`. -/
def comboSum : List (Option Card) → Except Unit Nat
  | [] => .ok 0
  | oc :: rest =>
    match oc with
    | none => .error ()
    | some c => do
        let s ← comboSum rest
        pure (getCardValue c + s)

/-- The body of the mask loop of `scoreFifteens` (cribPart.js lines 47-60):
sum the selected cards' values, and on a sum of 15 add 2 points and record
the formatted combination. -/
def fifteensStep (cards : List (Option Card)) (acc : Nat × List (List String))
    (m : Nat) : Except Unit (Nat × List (List String)) := do
  let combo := maskCombo m cards
  let s ← comboSum combo
  if s = 15 then pure (acc.1 + 2, acc.2 ++ [combo.map formatCard]) else pure acc

/-- `scoreFifteens` (cribPart.js lines 41-63): run the mask loop over every
mask from 1 to `2^n - 1`. -/
def scoreFifteens (cards : List (Option Card)) : Except Unit FifteensScore := do
  let res ← (List.range' 1 (2 ^ cards.length - 1)).foldlM (fifteensStep cards) (0, [])
  pure ⟨res.1, res.2⟩

/-- Dereference every slot of the array, as the `forEach` loops of
`scorePairs` and `scoreRuns` do; any absent card throws. -/
def derefAll : List (Option Card) → Except Unit (List Card)
  | [] => .ok []
  | oc :: rest =>
    match oc with
    | none => .error ()
    | some c => do
        let l ← derefAll rest
        pure (c :: l)

/-- The distinct elements of a list in order of first occurrence (the key
order in which `scorePairs` accumulates `rankCounts`; JavaScript object key
enumeration order can differ for integer-like keys, which affects only the
order of the human-readable labels, never the points). -/
def firstOccur : List Rank → List Rank
  | [] => []
  | r :: rs => r :: (firstOccur rs).filter (fun x => x ≠ r)

/-- The per-entry award of `scorePairs` (cribPart.js lines 75-90): a rank
occurring twice scores 2, three times 6, four times 12; anything else
contributes nothing and pushes no label. -/
def pairsStep (acc : Nat × List String) (e : Rank × Nat) : Nat × List String :=
  if e.2 = 2 then (acc.1 + 2, acc.2 ++ ["Pair of " ++ rankStr e.1 ++ "s"])
  else if e.2 = 3 then (acc.1 + 6, acc.2 ++ ["Three " ++ rankStr e.1 ++ "s"])
  else if e.2 = 4 then (acc.1 + 12, acc.2 ++ ["Four " ++ rankStr e.1 ++ "s"])
  else acc

/-- `scorePairs` (cribPart.js lines 66-93): dereference the cards, count
occurrences per rank, and fold the per-rank awards over the rank/count
entries. -/
def scorePairs (cards : List (Option Card)) : Except Unit PairsScore := do
  let cs ← derefAll cards
  let ranks := cs.map Card.rank
  let entries := (firstOccur ranks).map (fun r => (r, ranks.count r))
  let res := entries.foldl pairsStep (0, [])
  pure ⟨res.1, res.2⟩

/-- The numeric ranks of the cards, in order. -/
def numericRanks (cs : List Card) : List Nat := cs.map getNumericRank

/-- The sorted distinct numeric rank values present among the cards: the
value of `Object.keys(rankGroups).map(Number).sort((a,b) => a-b)` in
`scoreRuns` (all keys lie in 1..13). -/
def presentRanks (cs : List Card) : List Nat :=
  (List.range' 1 13).filter (fun r => decide (r ∈ numericRanks cs))

/-- `rankGroups[r]`: the cards of numeric rank `r`, in input order. -/
def rankGroup (cs : List Card) (r : Nat) : List Card :=
  cs.filter (fun c => getNumericRank c == r)

/-- The first index `i` at which `ranks[i + (len-1)] === ranks[i] + (len-1)`
(the window test of the three run-detection loops in cribPart.js lines
127-180; on a sorted duplicate-free list the endpoint test pins the whole
window). -/
def findRun (rs : List Nat) (len : Nat) : Option Nat :=
  (List.range (rs.length + 1 - len)).find?
    (fun i => rs.getD (i + (len - 1)) 0 == rs.getD i 0 + (len - 1))

/-- The `bestRun` selection of `scoreRuns`: a window of 5 is looked for
first, then 4, then 3; within a length the first window found wins (the
`if (len > bestLength)` guards make later windows of the same length
no-ops). Returns the length and start index. -/
def bestRunOf (rs : List Nat) : Option (Nat × Nat) :=
  match findRun rs 5 with
  | some i => some (5, i)
  | none =>
    match findRun rs 4 with
    | some i => some (4, i)
    | none =>
      match findRun rs 3 with
      | some i => some (3, i)
      | none => none

/-- The pure core of `scoreRuns` once every card has been dereferenced:
build the groups, pick the best run, multiply its length by the product of
the group sizes over the window, and report the participating cards. -/
def runsCore (cs : List Card) : RunsScore :=
  let rs := presentRanks cs
  match bestRunOf rs with
  | none => ⟨0, []⟩
  | some (len, i) =>
    let window := (rs.drop i).take len
    let multiplier := (window.map (fun r => (rankGroup cs r).length)).prod
    let runCards := window.foldl (fun acc r => acc ++ rankGroup cs r) []
    ⟨len * multiplier, [⟨len, multiplier, runCards.map (fun c => formatCard (some c))⟩]⟩

/-- `scoreRuns` (cribPart.js lines 106-200): zero for fewer than 3 slots,
otherwise dereference every card (the grouping `forEach` throws on an
absent card) and score the longest run. -/
def scoreRuns (cards : List (Option Card)) : Except Unit RunsScore :=
  if cards.length < 3 then .ok ⟨0, []⟩
  else do
    let cs ← derefAll cards
    pure (runsCore cs)

/-- `handCards.every(card => card.suit === firstSuit)`: left-to-right,
stopping at the first mismatch, throwing on a dereferenced absent card. -/
def everySuit (s : Suit) : List (Option Card) → Except Unit Bool
  | [] => .ok true
  | oc :: rest =>
    match oc with
    | none => .error ()
    | some c => if c.suit = s then everySuit s rest else .ok false

/-- `scoreFlush` (cribPart.js lines 203-229): zero for fewer than 4 slots;
otherwise the 4 hand cards must share the suit of `handCards[0]` (whose
dereference throws if that slot is absent); then 5 when the cut card
matches too, else 0 in crib mode and 4 in hand mode (an absent cut card
counts as a mismatch). -/
def scoreFlush (cards : List (Option Card)) (isCrib : Bool) : Except Unit FlushScore :=
  if cards.length < 4 then .ok ⟨0⟩
  else
    match cards with
    | [] => .ok ⟨0⟩
    | oc0 :: _ =>
      match oc0 with
      | none => .error ()
      | some c0 => do
        let isHandFlush ← everySuit c0.suit (cards.take 4)
        if isHandFlush then
          match cards.getD 4 none with
          | some cut =>
            if cut.suit = c0.suit then pure ⟨5⟩
            else if isCrib then pure ⟨0⟩ else pure ⟨4⟩
          | none => if isCrib then pure ⟨0⟩ else pure ⟨4⟩
        else pure ⟨0⟩

/-- `handCards.find(card => card.rank === 'J')`: the first Jack among the
slots, throwing if an absent card is dereferenced before a Jack is found. -/
def findJack : List (Option Card) → Except Unit (Option Card)
  | [] => .ok none
  | oc :: rest =>
    match oc with
    | none => .error ()
    | some c => if c.rank = Rank.J then .ok (some c) else findJack rest

/-- `scoreNobs` (cribPart.js lines 232-246): zero for fewer than 5 slots or
an absent cut card; otherwise find the first Jack among the 4 hand cards
and score 1 exactly when that card's suit equals the cut card's suit. -/
def scoreNobs (cards : List (Option Card)) : Except Unit NobsScore :=
  if cards.length < 5 then .ok ⟨0, none⟩
  else
    match cards.getD 4 none with
    | none => .ok ⟨0, none⟩
    | some cut => do
      let j ← findJack (cards.take 4)
      match j with
      | some jc =>
        if jc.suit = cut.suit then pure ⟨1, some (formatCard (some jc))⟩
        else pure ⟨0, none⟩
      | none => pure ⟨0, none⟩

/-- `scoreHand` (cribPart.js lines 249-270): `null` when the input is
missing, not of length 5, or has an absent slot; otherwise run the five
evaluators and sum their points.  After the guard no evaluator can throw
(proved below), so the catch-all `none` arm is unreachable. -/
def scoreHand (cards? : Option (List (Option Card))) (isCrib : Bool) : Option Report :=
  match cards? with
  | none => none
  | some cards =>
    if cards.length ≠ 5 then none
    else if cards.any (fun c => c.isNone) then none
    else
      match scoreFifteens cards, scorePairs cards, scoreRuns cards,
          scoreFlush cards isCrib, scoreNobs cards with
      | .ok f, .ok p, .ok r, .ok fl, .ok n =>
        some ⟨f.points + p.points + r.points + fl.points + n.points, f, p, r, fl, n⟩
      | _, _, _, _, _ => none

/-! ### Specification-side definitions

These follow the wording of the specification, to be compared with the
definitions extracted from the source. -/

/-- The sum of the fifteens values of a list of cards. -/
def sumVals (cs : List Card) : Nat := (cs.map getCardValue).sum

/-- The sub-list of cards selected by a bitmask (pure counterpart of
`maskCombo`, used to state what `scoreFifteens` counts). -/
def maskSelect : Nat → List Card → List Card
  | _, [] => []
  | m, c :: rest => (if m % 2 = 1 then [c] else []) ++ maskSelect (m / 2) rest

/-- Spec side: the number of non-empty subsets of the cards whose fifteens
values sum to exactly 15, subsets taken as sub-lists by position. -/
def specFifteenCount (cs : List Card) : Nat :=
  cs.sublists.countP (fun l => !l.isEmpty && (sumVals l == 15))

/-- Spec side: the per-rank pair award table — a rank occurring `k` times
awards 0, 0, 2, 6, 12 points for `k` = 0, 1, 2, 3, 4 (and nothing beyond). -/
def pairPoints (k : Nat) : Nat :=
  if k = 2 then 2 else if k = 3 then 6 else if k = 4 then 12 else 0

/-- Spec side: the window of `len` distinct sequence values starting at
index `i` is fully consecutive — each successive value exceeds its
predecessor by exactly 1. -/
def specConsecAt (rs : List Nat) (i len : Nat) : Bool :=
  (List.range (len - 1)).all (fun j => rs.getD (i + j + 1) 0 == rs.getD (i + j) 0 + 1)

/-- Spec side: some window of `len` consecutive distinct sequence values
exists among the sorted distinct values `rs`. -/
def specHasRun (rs : List Nat) (len : Nat) : Bool :=
  (List.range (rs.length + 1 - len)).any (fun i => specConsecAt rs i len)

/-- The length the winning run must have, per the specification's priority:
a window of 5 consecutive distinct values is preferred over 4, and 4 over 3. -/
def runLen (rs : List Nat) : Nat :=
  if specHasRun rs 5 then 5 else if specHasRun rs 4 then 4 else 3

/-- The points computed by the run scorer: zero without a best run,
otherwise the winning window's length times the product of `cnt` over the
window's rank values. -/
def runPoints (rs : List Nat) (cnt : Nat → Nat) : Nat :=
  match bestRunOf rs with
  | none => 0
  | some (len, i) => len * (((rs.drop i).take len).map cnt).prod

/-! ### Concrete evaluations -/

/-- C1: the claim states that 1 point is awarded as soon as any of the 4
hand cards is a Jack of the cut card's suit, regardless of which positions
other Jacks occupy.  The code instead inspects only the first Jack found:
on the hand J♥ J♦... counterexample hand [J♥, J♠, 2♦, 3♦] with cut 4♠, the
hand card J♠ is a Jack of the cut suit ♠, yet `scoreNobs` returns 0 points
because the first Jack, J♥, does not match. -/
theorem scoreNobs_misses_second_jack :
    scoreNobs [some ⟨Rank.J, Suit.H⟩, some ⟨Rank.J, Suit.S⟩, some ⟨Rank.r2, Suit.D⟩,
        some ⟨Rank.r3, Suit.D⟩, some ⟨Rank.r4, Suit.S⟩] = Except.ok ⟨0, none⟩ ∧
    some (Card.mk Rank.J Suit.S) ∈
      [some ⟨Rank.J, Suit.H⟩, some ⟨Rank.J, Suit.S⟩, some ⟨Rank.r2, Suit.D⟩,
        some ⟨Rank.r3, Suit.D⟩].take 4 ∧
    (Card.mk Rank.J Suit.S).rank = Rank.J ∧
    (Card.mk Rank.J Suit.S).suit = (Card.mk Rank.r4 Suit.S).suit :=
  ⟨rfl, by decide, rfl, rfl⟩

/-- C2 counterexample: on the hand [3♠, 3♥, 4♠, 5♠] with cut 6♠ in hand
mode, the total returned by the scorer is not 15 as claimed (it is 14). -/
theorem scoreHand_scenarioB_not_15 :
    ((scoreHand (some [some ⟨Rank.r3, Suit.S⟩, some ⟨Rank.r3, Suit.H⟩, some ⟨Rank.r4, Suit.S⟩,
        some ⟨Rank.r5, Suit.S⟩, some ⟨Rank.r6, Suit.S⟩]) false).map Report.total) ≠ some 15 := by
  decide

/-- C2 amended: on the hand [3♠, 3♥, 4♠, 5♠] with cut 6♠ in hand mode the
scorer returns total 14: fifteens 4 (the two subsets {3♠,3♥,4♠,5♠} and
{4♠,5♠,6♠}), pairs 2, runs 8 (length 4, multiplier 2), flush 0 (the four
hand cards do not share one suit — 3♥ is a heart), and nobs 0. -/
theorem scoreHand_scenarioB :
    scoreHand (some [some ⟨Rank.r3, Suit.S⟩, some ⟨Rank.r3, Suit.H⟩, some ⟨Rank.r4, Suit.S⟩,
        some ⟨Rank.r5, Suit.S⟩, some ⟨Rank.r6, Suit.S⟩]) false =
      some ⟨14,
        ⟨4, [["3♠", "3♥", "4♠", "5♠"], ["4♠", "5♠", "6♠"]]⟩,
        ⟨2, ["Pair of 3s"]⟩,
        ⟨8, [⟨4, 2, ["3♠", "3♥", "4♠", "5♠", "6♠"]⟩]⟩,
        ⟨0⟩,
        ⟨0, none⟩⟩ := by
  decide

/-- C3 counterexample: the pairs evaluator does not return a zero score on
an input whose slots are absent — dereferencing `card.rank` of an absent
card fails (the model of the thrown TypeError). -/
theorem scorePairs_fails_on_absent :
    scorePairs [none, none, none, none, none] = Except.error () := rfl

/-- C3 amended: applied directly to a 5-slot input of absent cards, the
fifteens, pairs, runs and flush evaluators all fail rather than return a
zero score; only the nobs evaluator tolerates it (its absent-cut guard
fires).  Absent slots are instead handled by the top-level scorer, which
returns the null sentinel for such inputs without reaching any evaluator. -/
theorem subEvaluators_on_absent :
    scoreFifteens [none, none, none, none, none] = Except.error () ∧
    scorePairs [none, none, none, none, none] = Except.error () ∧
    scoreRuns [none, none, none, none, none] = Except.error () ∧
    scoreFlush [none, none, none, none, none] false = Except.error () ∧
    scoreNobs [none, none, none, none, none] = Except.ok ⟨0, none⟩ ∧
    scoreHand (some [none, none, none, none, none]) false = none :=
  ⟨rfl, rfl, rfl, rfl, rfl, rfl⟩

/-! ### Helper lemmas -/

theorem derefAll_map_some (cs : List Card) : derefAll (cs.map some) = Except.ok cs := by
  induction cs with
  | nil => rfl
  | cons c rest ih => simp [derefAll, ih]

theorem maskCombo_map_some (cs : List Card) (m : Nat) :
    maskCombo m (cs.map some) = (maskSelect m cs).map some := by
  induction cs generalizing m with
  | nil => rfl
  | cons c rest ih =>
    simp only [List.map_cons, maskCombo, maskSelect, ih]
    by_cases h : m % 2 = 1 <;> simp [h]

theorem sumVals_cons (c : Card) (l : List Card) :
    sumVals (c :: l) = getCardValue c + sumVals l := by
  simp [sumVals]

theorem comboSum_map_some (cs : List Card) :
    comboSum (cs.map some) = Except.ok (sumVals cs) := by
  induction cs with
  | nil => rfl
  | cons c rest ih => simp [comboSum, ih, sumVals_cons]

theorem maskSelect_zero (cs : List Card) : maskSelect 0 cs = [] := by
  induction cs with
  | nil => rfl
  | cons c rest ih => simp [maskSelect, ih]

theorem maskSelect_two_mul (j : Nat) (c : Card) (cs : List Card) :
    maskSelect (2 * j) (c :: cs) = maskSelect j cs := by
  have h1 : (2 * j) % 2 = 0 := by omega
  have h2 : 2 * j / 2 = j := by omega
  simp [maskSelect, h1, h2]

theorem maskSelect_two_mul_add_one (j : Nat) (c : Card) (cs : List Card) :
    maskSelect (2 * j + 1) (c :: cs) = c :: maskSelect j cs := by
  have h1 : (2 * j + 1) % 2 = 1 := by omega
  have h2 : (2 * j + 1) / 2 = j := by omega
  simp [maskSelect, h1, h2]

theorem everySuit_map_some (s : Suit) (cs : List Card) :
    everySuit s (cs.map some) = Except.ok (cs.all (fun c => c.suit == s)) := by
  induction cs with
  | nil => rfl
  | cons c rest ih =>
    by_cases h : c.suit = s <;> simp [everySuit, h, ih]

theorem findJack_map_some (cs : List Card) :
    findJack (cs.map some) = Except.ok (cs.find? (fun c => c.rank == Rank.J)) := by
  induction cs with
  | nil => rfl
  | cons c rest ih =>
    by_cases h : c.rank = Rank.J <;> simp [findJack, h, ih, List.find?_cons]

theorem countP_range_two_mul (p : Nat → Bool) (k : Nat) :
    (List.range (2 * k)).countP p =
      (List.range k).countP (fun j => p (2 * j)) +
        (List.range k).countP (fun j => p (2 * j + 1)) := by
  induction k with
  | zero => simp
  | succ n ih =>
    have h : 2 * (n + 1) = 2 * n + 1 + 1 := by omega
    rw [h, List.range_succ, List.range_succ, List.range_succ]
    simp only [List.countP_append, List.countP_cons, List.countP_nil, ih]
    split_ifs <;> omega

theorem countP_flatMap_pair {α β : Type} (f g : α → β) (q : β → Bool) (l : List α) :
    (l.flatMap (fun x => [f x, g x])).countP q =
      l.countP (fun x => q (f x)) + l.countP (fun x => q (g x)) := by
  induction l with
  | nil => simp
  | cons a l ih =>
    rw [List.flatMap_cons, List.countP_append, ih]
    simp only [List.countP_cons, List.countP_nil]
    split_ifs <;> omega

theorem countP_maskSelect_eq_sublists (cs : List Card) (p : Nat → Bool) :
    (List.range (2 ^ cs.length)).countP (fun m => p (sumVals (maskSelect m cs))) =
      cs.sublists.countP (fun l => p (sumVals l)) := by
  induction cs generalizing p with
  | nil =>
    have h1 : List.range 1 = [0] := rfl
    simp [h1, maskSelect, List.sublists_nil, List.countP_cons, List.countP_nil]
  | cons c rest ih =>
    have hpow : 2 ^ (c :: rest).length = 2 * 2 ^ rest.length := by
      simp [List.length_cons, pow_succ]; ring
    rw [hpow, countP_range_two_mul]
    have e1 : (fun j => (fun m => p (sumVals (maskSelect m (c :: rest)))) (2 * j)) =
        (fun j => p (sumVals (maskSelect j rest))) := by
      funext j; simp only [maskSelect_two_mul]
    have e2 : (fun j => (fun m => p (sumVals (maskSelect m (c :: rest)))) (2 * j + 1)) =
        (fun j => p (getCardValue c + sumVals (maskSelect j rest))) := by
      funext j; simp only [maskSelect_two_mul_add_one, sumVals_cons]
    rw [List.sublists_cons]
    simp only [List.bind_eq_flatMap]
    rw [countP_flatMap_pair (fun x => x) (fun x => c :: x)]
    rw [e1, e2, ih p, ih (fun v => p (getCardValue c + v))]
    simp [sumVals_cons]

theorem except_bind_ok {α β : Type} (a : α) (f : α → Except Unit β) :
    (Except.ok a >>= f) = f a := rfl

theorem except_pure {α : Type} (a : α) : (pure a : Except Unit α) = Except.ok a := rfl

theorem fifteens_fold (cs : List Card) (ms : List Nat) (p : Nat) (ls : List (List String)) :
    ∃ ls2, ms.foldlM (fifteensStep (cs.map some)) (p, ls) =
      Except.ok (p + 2 * ms.countP (fun m => sumVals (maskSelect m cs) == 15), ls2) := by
  induction ms generalizing p ls with
  | nil => exact ⟨ls, by simp [except_pure]⟩
  | cons m ms ih =>
    rw [List.foldlM_cons]
    by_cases h : sumVals (maskSelect m cs) = 15
    · have hstep : fifteensStep (cs.map some) (p, ls) m =
          Except.ok (p + 2, ls ++ [(maskCombo m (cs.map some)).map formatCard]) := by
        simp [fifteensStep, maskCombo_map_some, comboSum_map_some, h, except_bind_ok, except_pure]
      obtain ⟨ls2, h2⟩ := ih (p + 2) (ls ++ [(maskCombo m (cs.map some)).map formatCard])
      refine ⟨ls2, ?_⟩
      rw [hstep, except_bind_ok, h2]
      have e : p + 2 + 2 * ms.countP (fun m => sumVals (maskSelect m cs) == 15) =
          p + 2 * (m :: ms).countP (fun m => sumVals (maskSelect m cs) == 15) := by
        rw [List.countP_cons]
        simp only [h, beq_self_eq_true, if_true]
        omega
      rw [e]
    · have hstep : fifteensStep (cs.map some) (p, ls) m = Except.ok (p, ls) := by
        simp [fifteensStep, maskCombo_map_some, comboSum_map_some, h, except_bind_ok, except_pure]
      obtain ⟨ls2, h2⟩ := ih p ls
      refine ⟨ls2, ?_⟩
      rw [hstep, except_bind_ok, h2]
      have e : p + 2 * ms.countP (fun m => sumVals (maskSelect m cs) == 15) =
          p + 2 * (m :: ms).countP (fun m => sumVals (maskSelect m cs) == 15) := by
        rw [List.countP_cons]
        have : (sumVals (maskSelect m cs) == 15) = false := by simp [h]
        simp [this]
      rw [e]

theorem scoreFifteens_map_some (cs : List Card) :
    ∃ ls, scoreFifteens (cs.map some) =
      Except.ok ⟨2 * (List.range' 1 (2 ^ cs.length - 1)).countP
        (fun m => sumVals (maskSelect m cs) == 15), ls⟩ := by
  obtain ⟨ls2, h2⟩ := fifteens_fold cs (List.range' 1 (2 ^ cs.length - 1)) 0 []
  refine ⟨ls2, ?_⟩
  simp only [scoreFifteens, List.length_map, h2, except_bind_ok, except_pure, Nat.zero_add]

theorem countP_range'_one (k : Nat) (p : Nat → Bool) (hp : p 0 = false) :
    (List.range' 1 k).countP p = (List.range (k + 1)).countP p := by
  rw [List.range_eq_range', List.range'_succ, List.countP_cons, hp]
  simp

/-- C5: for every 5-card hand the fifteens evaluator succeeds and its point
total equals 2 times the number of non-empty subsets (all 31 non-empty
sub-lists of the 5 cards, sizes 1 through 5) whose fifteens values sum to
exactly 15; in particular the total is even. -/
theorem fifteens_counts_subsets (c0 c1 c2 c3 c4 : Card) :
    ∃ r, scoreFifteens [some c0, some c1, some c2, some c3, some c4] = Except.ok r ∧
      r.points = 2 * specFifteenCount [c0, c1, c2, c3, c4] ∧ Even r.points := by
  obtain ⟨ls, h⟩ := scoreFifteens_map_some [c0, c1, c2, c3, c4]
  have hmap : List.map some [c0, c1, c2, c3, c4] =
      [some c0, some c1, some c2, some c3, some c4] := rfl
  rw [hmap] at h
  have hcnt : (List.range' 1 (2 ^ ([c0, c1, c2, c3, c4] : List Card).length - 1)).countP
      (fun m => sumVals (maskSelect m [c0, c1, c2, c3, c4]) == 15) =
      specFifteenCount [c0, c1, c2, c3, c4] := by
    have hp0 : (fun m => sumVals (maskSelect m ([c0, c1, c2, c3, c4] : List Card)) == 15) 0
        = false := by
      simp [maskSelect_zero, sumVals]
    have hlen : (2 : Nat) ^ ([c0, c1, c2, c3, c4] : List Card).length - 1 = 31 := rfl
    rw [hlen, countP_range'_one 31 _ hp0]
    have h32 : (31 : Nat) + 1 = 2 ^ ([c0, c1, c2, c3, c4] : List Card).length := rfl
    rw [h32]
    have hb := countP_maskSelect_eq_sublists [c0, c1, c2, c3, c4] (fun v => v == 15)
    simp only [] at hb
    rw [hb]
    unfold specFifteenCount
    congr 1
    funext l
    cases l with
    | nil => simp [sumVals]
    | cons x xs => simp
  rw [hcnt] at h
  exact ⟨_, h, rfl, even_two_mul _⟩

theorem mem_firstOccur {r : Rank} : ∀ {l : List Rank}, r ∈ firstOccur l ↔ r ∈ l
  | [] => Iff.rfl
  | a :: l => by
    by_cases h : r = a
    · simp [firstOccur, h]
    · simp [firstOccur, h, List.mem_filter, mem_firstOccur (l := l)]

theorem nodup_firstOccur : ∀ (l : List Rank), (firstOccur l).Nodup
  | [] => List.nodup_nil
  | a :: l => by
    rw [firstOccur, List.nodup_cons]
    constructor
    · intro hmem
      have h2 := List.of_mem_filter hmem
      simp at h2
    · exact (nodup_firstOccur l).filter _

theorem pairsStep_fst (acc : Nat × List String) (e : Rank × Nat) :
    (pairsStep acc e).1 = acc.1 + pairPoints e.2 := by
  simp only [pairsStep, pairPoints]
  split_ifs <;> simp

theorem pairs_foldl (entries : List (Rank × Nat)) (p : Nat) (ls : List String) :
    (entries.foldl pairsStep (p, ls)).1 = p + (entries.map (fun e => pairPoints e.2)).sum := by
  induction entries generalizing p ls with
  | nil => simp
  | cons e es ih =>
    rw [List.foldl_cons]
    have := ih (pairsStep (p, ls) e).1 (pairsStep (p, ls) e).2
    rw [Prod.mk.eta] at this
    rw [this, pairsStep_fst]
    simp only [List.map_cons, List.sum_cons]
    omega

theorem scorePairs_map_some (cs : List Card) :
    ∃ ls, scorePairs (cs.map some) = Except.ok
      ⟨((firstOccur (cs.map Card.rank)).map
          (fun r => pairPoints ((cs.map Card.rank).count r))).sum, ls⟩ := by
  refine ⟨(((firstOccur (cs.map Card.rank)).map
      (fun r => (r, (cs.map Card.rank).count r))).foldl pairsStep (0, [])).2, ?_⟩
  simp only [scorePairs, derefAll_map_some, except_bind_ok, except_pure]
  simp only [Except.ok.injEq, PairsScore.mk.injEq]
  refine ⟨?_, trivial⟩
  rw [pairs_foldl, List.map_map]
  have hcomp : ((fun (e : Rank × Nat) => pairPoints e.2) ∘
      fun r => (r, (cs.map Card.rank).count r))
      = fun r => pairPoints ((cs.map Card.rank).count r) := rfl
  rw [hcomp, Nat.zero_add]

theorem sum_pairPoints_univ (ranks : List Rank) :
    ((firstOccur ranks).map (fun r => pairPoints (ranks.count r))).sum =
      ∑ r : Rank, pairPoints (ranks.count r) := by
  rw [← List.sum_toFinset _ (nodup_firstOccur ranks)]
  apply Finset.sum_subset (Finset.subset_univ _)
  intro r _ hr
  have hnm : r ∉ ranks := fun hmem => hr (List.mem_toFinset.mpr (mem_firstOccur.mpr hmem))
  rw [List.count_eq_zero_of_not_mem hnm]
  rfl

/-- C7: for every 5-card hand the pairs evaluator succeeds and its total is
the sum, over all 13 ranks, of the per-rank award determined solely by that
rank's occurrence count k: 0, 0, 2, 6, 12 points for k = 0, 1, 2, 3, 4. -/
theorem pairs_rank_contributions (c0 c1 c2 c3 c4 : Card) :
    ∃ res, scorePairs [some c0, some c1, some c2, some c3, some c4] = Except.ok res ∧
      res.points = ∑ r : Rank, pairPoints (([c0, c1, c2, c3, c4].map Card.rank).count r) := by
  obtain ⟨ls, h⟩ := scorePairs_map_some [c0, c1, c2, c3, c4]
  have hmap : List.map some [c0, c1, c2, c3, c4] =
      [some c0, some c1, some c2, some c3, some c4] := rfl
  rw [hmap] at h
  exact ⟨_, h, sum_pairPoints_univ ([c0, c1, c2, c3, c4].map Card.rank)⟩

/-- C6: for every 5-card hand and mode flag the flush evaluator succeeds,
scoring 0 unless the 4 hand cards all share one suit; when they do, it
scores 5 when the cut card's suit matches that suit (either mode), 0 in
crib mode on a mismatched cut, and 4 in hand mode on a mismatched cut. -/
theorem flush_mode_cases (c0 c1 c2 c3 c4 : Card) (isCrib : Bool) :
    scoreFlush [some c0, some c1, some c2, some c3, some c4] isCrib =
      Except.ok ⟨if c1.suit = c0.suit ∧ c2.suit = c0.suit ∧ c3.suit = c0.suit then
          (if c4.suit = c0.suit then 5 else if isCrib then 0 else 4)
        else 0⟩ := by
  by_cases h1 : c1.suit = c0.suit <;> by_cases h2 : c2.suit = c0.suit <;>
    by_cases h3 : c3.suit = c0.suit <;> by_cases h4 : c4.suit = c0.suit <;>
      cases isCrib <;>
        simp [scoreFlush, everySuit, h1, h2, h3, h4, except_bind_ok, except_pure]

theorem scoreRuns_map_some (cs : List Card) (h : ¬ (cs.map some).length < 3) :
    scoreRuns (cs.map some) = Except.ok (runsCore cs) := by
  simp only [scoreRuns, h, if_false, derefAll_map_some, except_bind_ok, except_pure]

theorem scoreNobs_five (c0 c1 c2 c3 c4 : Card) :
    scoreNobs [some c0, some c1, some c2, some c3, some c4] =
      Except.ok (match [c0, c1, c2, c3].find? (fun c => c.rank == Rank.J) with
        | some jc =>
          if jc.suit = c4.suit then ⟨1, some (formatCard (some jc))⟩ else ⟨0, none⟩
        | none => ⟨0, none⟩) := by
  have h5 : ¬ ([some c0, some c1, some c2, some c3, some c4] :
      List (Option Card)).length < 5 := by simp
  have htake : ([some c0, some c1, some c2, some c3, some c4] :
      List (Option Card)).take 4 = [c0, c1, c2, c3].map some := rfl
  have hgd : ([some c0, some c1, some c2, some c3, some c4] :
      List (Option Card)).getD 4 none = some c4 := rfl
  simp only [scoreNobs, h5, if_false, hgd, htake, findJack_map_some, except_bind_ok]
  cases hf : [c0, c1, c2, c3].find? (fun c => c.rank == Rank.J) with
  | none => rfl
  | some jc => by_cases hs : jc.suit = c4.suit <;> simp [hs, except_pure]

theorem scoreFlush_five (c0 c1 c2 c3 c4 : Card) (isCrib : Bool) :
    scoreFlush [some c0, some c1, some c2, some c3, some c4] isCrib =
      Except.ok ⟨if c1.suit = c0.suit ∧ c2.suit = c0.suit ∧ c3.suit = c0.suit then
          (if c4.suit = c0.suit then 5 else if isCrib then 0 else 4)
        else 0⟩ := by
  by_cases h1 : c1.suit = c0.suit <;> by_cases h2 : c2.suit = c0.suit <;>
    by_cases h3 : c3.suit = c0.suit <;> by_cases h4 : c4.suit = c0.suit <;>
      cases isCrib <;>
        simp [scoreFlush, everySuit, h1, h2, h3, h4, except_bind_ok, except_pure]

theorem scoreHand_eval (L : List (Option Card)) (b : Bool)
    (f : FifteensScore) (p : PairsScore) (r : RunsScore) (fl : FlushScore) (n : NobsScore)
    (hlen : L.length = 5) (hnone : L.any (fun c => c.isNone) = false)
    (hf : scoreFifteens L = Except.ok f) (hp : scorePairs L = Except.ok p)
    (hr : scoreRuns L = Except.ok r) (hfl : scoreFlush L b = Except.ok fl)
    (hn : scoreNobs L = Except.ok n) :
    scoreHand (some L) b =
      some ⟨f.points + p.points + r.points + fl.points + n.points, f, p, r, fl, n⟩ := by
  simp only [scoreHand, hlen, hnone, hf, hp, hr, hfl, hn]
  simp

theorem scoreHand_five (c0 c1 c2 c3 c4 : Card) (b : Bool) :
    ∃ rep, scoreHand (some [some c0, some c1, some c2, some c3, some c4]) b = some rep ∧
      scoreFifteens [some c0, some c1, some c2, some c3, some c4] = Except.ok rep.fifteens ∧
      scorePairs [some c0, some c1, some c2, some c3, some c4] = Except.ok rep.pairs ∧
      scoreRuns [some c0, some c1, some c2, some c3, some c4] = Except.ok rep.runs ∧
      scoreFlush [some c0, some c1, some c2, some c3, some c4] b = Except.ok rep.flush ∧
      scoreNobs [some c0, some c1, some c2, some c3, some c4] = Except.ok rep.nobs ∧
      rep.total = rep.fifteens.points + rep.pairs.points + rep.runs.points +
        rep.flush.points + rep.nobs.points := by
  have hmap : List.map some [c0, c1, c2, c3, c4] =
      [some c0, some c1, some c2, some c3, some c4] := rfl
  obtain ⟨lf, hf⟩ := scoreFifteens_map_some [c0, c1, c2, c3, c4]
  obtain ⟨lp, hp⟩ := scorePairs_map_some [c0, c1, c2, c3, c4]
  have hr := scoreRuns_map_some [c0, c1, c2, c3, c4] (by simp)
  have hfl := scoreFlush_five c0 c1 c2 c3 c4 b
  have hn := scoreNobs_five c0 c1 c2 c3 c4
  rw [hmap] at hf hp hr
  exact ⟨_, scoreHand_eval _ b _ _ _ _ _ rfl rfl hf hp hr hfl hn, hf, hp, hr, hfl, hn, rfl⟩

theorem any_isNone_eq (l : List (Option Card)) :
    l.any (fun c => c.isNone) = !l.all (fun c => c.isSome) := by
  induction l with
  | nil => rfl
  | cons o l ih => cases o <;> simp [ih]

theorem all_some_exists : ∀ (l : List (Option Card)),
    l.all (fun c => c.isSome) = true → ∃ cs : List Card, l = cs.map some
  | [], _ => ⟨[], rfl⟩
  | none :: l, h => by simp at h
  | some c :: l, h => by
    simp only [List.all_cons, Option.isSome_some, Bool.true_and] at h
    obtain ⟨cs, hcs⟩ := all_some_exists l h
    exact ⟨c :: cs, by rw [List.map_cons, hcs]⟩

theorem list_card_five (cs : List Card) (h : cs.length = 5) :
    ∃ c0 c1 c2 c3 c4, cs = [c0, c1, c2, c3, c4] := by
  rcases cs with _ | ⟨a, _ | ⟨b, _ | ⟨c, _ | ⟨d, _ | ⟨e, rest⟩⟩⟩⟩⟩ <;> simp_all

/-- C8: for every 5-card hand and mode flag the scorer returns a report
whose total equals fifteens.points + pairs.points + runs.points +
flush.points + nobs.points, where each sub-report is exactly the result of
the corresponding sub-evaluator on the same 5 cards. -/
theorem total_is_sum_of_parts (c0 c1 c2 c3 c4 : Card) (b : Bool) :
    ∃ rep, scoreHand (some [some c0, some c1, some c2, some c3, some c4]) b = some rep ∧
      scoreFifteens [some c0, some c1, some c2, some c3, some c4] = Except.ok rep.fifteens ∧
      scorePairs [some c0, some c1, some c2, some c3, some c4] = Except.ok rep.pairs ∧
      scoreRuns [some c0, some c1, some c2, some c3, some c4] = Except.ok rep.runs ∧
      scoreFlush [some c0, some c1, some c2, some c3, some c4] b = Except.ok rep.flush ∧
      scoreNobs [some c0, some c1, some c2, some c3, some c4] = Except.ok rep.nobs ∧
      rep.total = rep.fifteens.points + rep.pairs.points + rep.runs.points +
        rep.flush.points + rep.nobs.points :=
  scoreHand_five c0 c1 c2 c3 c4 b

/-- C9: for every input, the scorer returns a report exactly when the input
is present, has length 5, and has no absent slot; in every other case it
returns the null sentinel (and, as modelled, no exception escapes: the
validated inputs make every sub-evaluator succeed). -/
theorem scoreHand_invalid_sentinel (cards? : Option (List (Option Card))) (b : Bool) :
    (scoreHand cards? b).isSome =
      (match cards? with
       | none => false
       | some cs => (cs.length == 5) && cs.all (fun c => c.isSome)) := by
  cases cards? with
  | none => rfl
  | some cs =>
    by_cases h5 : cs.length = 5
    · by_cases hall : cs.all (fun c => c.isSome) = true
      · obtain ⟨l, rfl⟩ := all_some_exists cs hall
        have hl5 : l.length = 5 := by simpa using h5
        obtain ⟨c0, c1, c2, c3, c4, rfl⟩ := list_card_five l hl5
        have hmap : List.map some [c0, c1, c2, c3, c4] =
            [some c0, some c1, some c2, some c3, some c4] := rfl
        obtain ⟨rep, hrep, -, -, -, -, -, -⟩ := scoreHand_five c0 c1 c2 c3 c4 b
        rw [hmap, hrep]
        rfl
      · have hallf : cs.all (fun c => c.isSome) = false := by
          cases hv : cs.all (fun c => c.isSome) with
          | false => rfl
          | true => exact absurd hv hall
        have hany : cs.any (fun c => c.isNone) = true := by
          rw [any_isNone_eq, hallf]; rfl
        have hnone : scoreHand (some cs) b = none := by
          simp [scoreHand, h5, hany]
        rw [hnone]
        show (none : Option Report).isSome = (cs.length == 5 && cs.all fun c => c.isSome)
        rw [hallf]
        simp
    · have hnone : scoreHand (some cs) b = none := by simp [scoreHand, h5]
      have hne : (cs.length == 5) = false := by simpa using h5
      rw [hnone]
      show (none : Option Report).isSome = (cs.length == 5 && cs.all fun c => c.isSome)
      rw [hne]
      simp

theorem rankOfString_eq_none (x : String) : rankOfString x = none ↔ x ∉ RANKS := by
  constructor
  · intro h hmem
    simp only [RANKS, List.mem_cons, List.not_mem_nil, or_false] at hmem
    rcases hmem with h1|h1|h1|h1|h1|h1|h1|h1|h1|h1|h1|h1|h1 <;> subst h1 <;>
      revert h <;> decide
  · intro h
    simp only [RANKS, List.mem_cons, List.not_mem_nil, or_false] at h
    push_neg at h
    obtain ⟨n1, n2, n3, n4, n5, n6, n7, n8, n9, n10, n11, n12, n13⟩ := h
    simp [rankOfString, n1, n2, n3, n4, n5, n6, n7, n8, n9, n10, n11, n12, n13]

theorem suitOfString_eq_none (x : String) : suitOfString x = none ↔ x ∉ SUITS := by
  constructor
  · intro h hmem
    simp only [SUITS, List.mem_cons, List.not_mem_nil, or_false] at hmem
    rcases hmem with h1|h1|h1|h1 <;> subst h1 <;> revert h <;> decide
  · intro h
    simp only [SUITS, List.mem_cons, List.not_mem_nil, or_false] at h
    push_neg at h
    obtain ⟨n1, n2, n3, n4⟩ := h
    simp [suitOfString, n1, n2, n3, n4]

theorem parseCard_eq_none_iff (s : String) :
    parseCard (some s) = none ↔
      (s = "" ∨ rankPart s ∉ RANKS ∨ suitPart s ∉ SUITS) := by
  by_cases he : s = ""
  · simp [parseCard, he]
  · simp only [parseCard, he, if_false]
    cases hr : rankOfString (rankPart s) with
    | none =>
      have hnm : rankPart s ∉ RANKS := (rankOfString_eq_none _).mp hr
      simp [hnm, he]
    | some r =>
      have hrm : rankPart s ∈ RANKS := by
        by_contra hnm
        rw [(rankOfString_eq_none _).mpr hnm] at hr
        exact Option.noConfusion hr
      cases hsu : suitOfString (suitPart s) with
      | none =>
        have hnm : suitPart s ∉ SUITS := (suitOfString_eq_none _).mp hsu
        simp [hnm, he, hrm]
      | some su =>
        have hsm : suitPart s ∈ SUITS := by
          by_contra hnm
          rw [(suitOfString_eq_none _).mpr hnm] at hsu
          exact Option.noConfusion hsu
        simp [he, hrm, hsm]

/-- C10: parsing a formatted valid card recovers exactly that card, and
parsing fails to the absent value exactly for the missing token, the empty
token, and every token whose rank part or suit part lies outside the valid
alphabets `RANKS` and `SUITS`. -/
theorem parseCard_formatCard_roundtrip :
    (∀ c : Card, parseCard (some (formatCard (some c))) = some c) ∧
    parseCard none = none ∧
    (∀ s : String, parseCard (some s) = none ↔
      (s = "" ∨ rankPart s ∉ RANKS ∨ suitPart s ∉ SUITS)) := by
  refine ⟨?_, rfl, parseCard_eq_none_iff⟩
  intro c
  obtain ⟨r, su⟩ := c
  revert r su
  decide


theorem runsCore_points (cs : List Card) :
    (runsCore cs).points =
      runPoints (presentRanks cs) (fun r => (rankGroup cs r).length) := by
  unfold runsCore runPoints
  rcases h : bestRunOf (presentRanks cs) with - | ⟨len, i⟩ <;> simp [h]

theorem bool_eq_false_of_imp {x : Bool} (h : x = true → False) : x = false := by
  cases x
  · rfl
  · exact absurd rfl h

theorem specHasRun5_three (a b c : Nat) : specHasRun [a, b, c] 5 = false := rfl

theorem specHasRun4_three (a b c : Nat) : specHasRun [a, b, c] 4 = false := rfl

theorem specHasRun3_three (a b c : Nat) :
    specHasRun [a, b, c] 3 = ((b == a + 1) && (c == b + 1)) := by
  simp [specHasRun, specConsecAt, List.range_succ]

theorem specHasRun5_four (a b c d : Nat) : specHasRun [a, b, c, d] 5 = false := rfl

theorem specHasRun4_four (a b c d : Nat) :
    specHasRun [a, b, c, d] 4 = ((b == a + 1) && ((c == b + 1) && (d == c + 1))) := by
  simp [specHasRun, specConsecAt, List.range_succ, Bool.and_assoc]

theorem specHasRun3_four (a b c d : Nat) :
    specHasRun [a, b, c, d] 3 =
      (((b == a + 1) && (c == b + 1)) || ((c == b + 1) && (d == c + 1))) := by
  simp [specHasRun, specConsecAt, List.range_succ]

theorem specHasRun5_five (a b c d e : Nat) :
    specHasRun [a, b, c, d, e] 5 =
      ((b == a + 1) && ((c == b + 1) && ((d == c + 1) && (e == d + 1)))) := by
  simp [specHasRun, specConsecAt, List.range_succ, Bool.and_assoc]

theorem specHasRun4_five (a b c d e : Nat) :
    specHasRun [a, b, c, d, e] 4 =
      (((b == a + 1) && ((c == b + 1) && (d == c + 1))) ||
        ((c == b + 1) && ((d == c + 1) && (e == d + 1)))) := by
  simp [specHasRun, specConsecAt, List.range_succ, Bool.and_assoc]

theorem specHasRun3_five (a b c d e : Nat) :
    specHasRun [a, b, c, d, e] 3 =
      (((b == a + 1) && (c == b + 1)) ||
        (((c == b + 1) && (d == c + 1)) || ((d == c + 1) && (e == d + 1)))) := by
  simp [specHasRun, specConsecAt, List.range_succ, Bool.or_assoc]

theorem findRun5_three (a b c : Nat) : findRun [a, b, c] 5 = none := rfl

theorem findRun4_three (a b c : Nat) : findRun [a, b, c] 4 = none := rfl

theorem findRun3_three (a b c : Nat) :
    findRun [a, b, c] 3 = (if c == a + 2 then some 0 else none) := by
  simp only [findRun]
  norm_num [List.range_succ, List.find?]
  by_cases h : c = a + 2
  · simp [h]
  · have h' : (c == a + 2) = false := by simp [h]
    simp [h, h']

theorem findRun5_four (a b c d : Nat) : findRun [a, b, c, d] 5 = none := rfl

theorem findRun4_four (a b c d : Nat) :
    findRun [a, b, c, d] 4 = (if d == a + 3 then some 0 else none) := by
  simp only [findRun]
  norm_num [List.range_succ, List.find?]
  by_cases h : d = a + 3
  · simp [h]
  · have h' : (d == a + 3) = false := by simp [h]
    simp [h, h']

theorem findRun3_four (a b c d : Nat) :
    findRun [a, b, c, d] 3 =
      (if c == a + 2 then some 0 else if d == b + 2 then some 1 else none) := by
  simp only [findRun]
  norm_num [List.range_succ, List.find?]
  by_cases h1 : c = a + 2
  · simp [h1]
  · have h1' : (c == a + 2) = false := by simp [h1]
    by_cases h2 : d = b + 2
    · simp [h1, h1', h2]
    · have h2' : (d == b + 2) = false := by simp [h2]
      simp [h1, h1', h2, h2']

theorem findRun5_five (a b c d e : Nat) :
    findRun [a, b, c, d, e] 5 = (if e == a + 4 then some 0 else none) := by
  simp only [findRun]
  norm_num [List.range_succ, List.find?]
  by_cases h : e = a + 4
  · simp [h]
  · have h' : (e == a + 4) = false := by simp [h]
    simp [h, h']

theorem findRun4_five (a b c d e : Nat) :
    findRun [a, b, c, d, e] 4 =
      (if d == a + 3 then some 0 else if e == b + 3 then some 1 else none) := by
  simp only [findRun]
  norm_num [List.range_succ, List.find?]
  by_cases h1 : d = a + 3
  · simp [h1]
  · have h1' : (d == a + 3) = false := by simp [h1]
    by_cases h2 : e = b + 3
    · simp [h1, h1', h2]
    · have h2' : (e == b + 3) = false := by simp [h2]
      simp [h1, h1', h2, h2']

theorem findRun3_five (a b c d e : Nat) :
    findRun [a, b, c, d, e] 3 =
      (if c == a + 2 then some 0 else if d == b + 2 then some 1
        else if e == c + 2 then some 2 else none) := by
  simp only [findRun]
  norm_num [List.range_succ, List.find?]
  by_cases h1 : c = a + 2
  · simp [h1]
  · have h1' : (c == a + 2) = false := by simp [h1]
    by_cases h2 : d = b + 2
    · simp [h1, h1', h2]
    · have h2' : (d == b + 2) = false := by simp [h2]
      by_cases h3 : e = c + 2
      · simp [h1, h1', h2, h2', h3]
      · have h3' : (e == c + 2) = false := by simp [h3]
        simp [h1, h1', h2, h2', h3, h3']

theorem runPoints_three (a b c : Nat) (cnt : Nat → Nat)
    (hab : a < b) (hbc : b < c) :
    (specHasRun [a, b, c] 3 = false → runPoints [a, b, c] cnt = 0) ∧
    (specHasRun [a, b, c] 3 = true →
      ∃ i, i + runLen [a, b, c] ≤ 3 ∧ specConsecAt [a, b, c] i (runLen [a, b, c]) = true ∧
        runPoints [a, b, c] cnt =
          runLen [a, b, c] * ((([a, b, c].drop i).take (runLen [a, b, c])).map cnt).prod) := by
  have hL : runLen [a, b, c] = 3 := by
    simp [runLen, specHasRun5_three, specHasRun4_three]
  by_cases hA : c = a + 2
  · have hb : b = a + 1 := by omega
    subst hb
    subst hA
    have hT : specHasRun [a, a + 1, a + 2] 3 = true := by
      rw [specHasRun3_three]
      simp
    have hBR : bestRunOf [a, a + 1, a + 2] = some (3, 0) := by
      simp [bestRunOf, findRun5_three, findRun4_three, findRun3_three]
    constructor
    · intro h
      rw [h] at hT
      exact Bool.noConfusion hT
    · intro _
      refine ⟨0, by rw [hL], ?_, ?_⟩
      · rw [hL]
        simp [specConsecAt, List.range_succ]
      · rw [hL]
        simp [runPoints, hBR]
  · have hF : specHasRun [a, b, c] 3 = false := by
      rw [specHasRun3_three]
      apply bool_eq_false_of_imp
      intro hx
      simp only [Bool.and_eq_true, beq_iff_eq] at hx
      omega
    have hBR : bestRunOf [a, b, c] = none := by
      have hA' : (c == a + 2) = false := by simp [hA]
      simp [bestRunOf, findRun5_three, findRun4_three, findRun3_three, hA']
    constructor
    · intro _
      simp [runPoints, hBR]
    · intro h
      rw [h] at hF
      exact Bool.noConfusion hF

theorem runPoints_four (a b c d : Nat) (cnt : Nat → Nat)
    (hab : a < b) (hbc : b < c) (hcd : c < d) :
    (specHasRun [a, b, c, d] 3 = false → runPoints [a, b, c, d] cnt = 0) ∧
    (specHasRun [a, b, c, d] 3 = true →
      ∃ i, i + runLen [a, b, c, d] ≤ 4 ∧
        specConsecAt [a, b, c, d] i (runLen [a, b, c, d]) = true ∧
        runPoints [a, b, c, d] cnt =
          runLen [a, b, c, d] *
            ((([a, b, c, d].drop i).take (runLen [a, b, c, d])).map cnt).prod) := by
  by_cases hA : d = a + 3
  · have hb : b = a + 1 := by omega
    have hc : c = a + 2 := by omega
    subst hb; subst hc; subst hA
    have hT : specHasRun [a, a + 1, a + 2, a + 3] 3 = true := by
      rw [specHasRun3_four]; simp
    have hL : runLen [a, a + 1, a + 2, a + 3] = 4 := by
      have h4 : specHasRun [a, a + 1, a + 2, a + 3] 4 = true := by
        rw [specHasRun4_four]; simp
      simp [runLen, specHasRun5_four, h4]
    have hBR : bestRunOf [a, a + 1, a + 2, a + 3] = some (4, 0) := by
      simp [bestRunOf, findRun5_four, findRun4_four]
    refine ⟨fun h => absurd hT (by rw [h]; exact Bool.noConfusion), fun _ => ?_⟩
    refine ⟨0, by rw [hL], ?_, ?_⟩
    · rw [hL]; simp [specConsecAt, List.range_succ]
    · rw [hL]; simp [runPoints, hBR]
  · have h4F : specHasRun [a, b, c, d] 4 = false := by
      rw [specHasRun4_four]
      apply bool_eq_false_of_imp
      intro hx
      simp only [Bool.and_eq_true, beq_iff_eq] at hx
      omega
    have hL : runLen [a, b, c, d] = 3 := by
      simp [runLen, specHasRun5_four, h4F]
    have hA' : (d == a + 3) = false := by simp [hA]
    by_cases hB : c = a + 2
    · have hb : b = a + 1 := by omega
      subst hb; subst hB
      have hT : specHasRun [a, a + 1, a + 2, d] 3 = true := by
        rw [specHasRun3_four]; simp
      have hBR : bestRunOf [a, a + 1, a + 2, d] = some (3, 0) := by
        simp [bestRunOf, findRun5_four, findRun4_four, findRun3_four, hA']
      refine ⟨fun h => absurd hT (by rw [h]; exact Bool.noConfusion), fun _ => ?_⟩
      refine ⟨0, by rw [hL]; omega, ?_, ?_⟩
      · rw [hL]; simp [specConsecAt, List.range_succ]
      · rw [hL]; simp [runPoints, hBR]
    · have hB' : (c == a + 2) = false := by simp [hB]
      by_cases hC : d = b + 2
      · have hc : c = b + 1 := by omega
        subst hc; subst hC
        have hT : specHasRun [a, b, b + 1, b + 2] 3 = true := by
          rw [specHasRun3_four]; simp
        have hBR : bestRunOf [a, b, b + 1, b + 2] = some (3, 1) := by
          simp [bestRunOf, findRun5_four, findRun4_four, findRun3_four, hA', hB']
        refine ⟨fun h => absurd hT (by rw [h]; exact Bool.noConfusion), fun _ => ?_⟩
        refine ⟨1, by rw [hL], ?_, ?_⟩
        · rw [hL]; simp [specConsecAt, List.range_succ]
        · rw [hL]; simp [runPoints, hBR]
      · have hC' : (d == b + 2) = false := by simp [hC]
        have hF : specHasRun [a, b, c, d] 3 = false := by
          rw [specHasRun3_four]
          apply bool_eq_false_of_imp
          intro hx
          simp only [Bool.or_eq_true, Bool.and_eq_true, beq_iff_eq] at hx
          omega
        have hBR : bestRunOf [a, b, c, d] = none := by
          simp [bestRunOf, findRun5_four, findRun4_four, findRun3_four, hA', hB', hC']
        refine ⟨fun _ => by simp [runPoints, hBR],
          fun h => absurd hF (by rw [h]; exact Bool.noConfusion)⟩

theorem runPoints_five (a b c d e : Nat) (cnt : Nat → Nat)
    (hab : a < b) (hbc : b < c) (hcd : c < d) (hde : d < e) :
    (specHasRun [a, b, c, d, e] 3 = false → runPoints [a, b, c, d, e] cnt = 0) ∧
    (specHasRun [a, b, c, d, e] 3 = true →
      ∃ i, i + runLen [a, b, c, d, e] ≤ 5 ∧
        specConsecAt [a, b, c, d, e] i (runLen [a, b, c, d, e]) = true ∧
        runPoints [a, b, c, d, e] cnt =
          runLen [a, b, c, d, e] *
            ((([a, b, c, d, e].drop i).take (runLen [a, b, c, d, e])).map cnt).prod) := by
  by_cases hA : e = a + 4
  · have hb : b = a + 1 := by omega
    have hc : c = a + 2 := by omega
    have hd : d = a + 3 := by omega
    subst hb; subst hc; subst hd; subst hA
    have hT : specHasRun [a, a + 1, a + 2, a + 3, a + 4] 3 = true := by
      rw [specHasRun3_five]; simp
    have hL : runLen [a, a + 1, a + 2, a + 3, a + 4] = 5 := by
      have h5 : specHasRun [a, a + 1, a + 2, a + 3, a + 4] 5 = true := by
        rw [specHasRun5_five]; simp
      simp [runLen, h5]
    have hBR : bestRunOf [a, a + 1, a + 2, a + 3, a + 4] = some (5, 0) := by
      simp [bestRunOf, findRun5_five]
    refine ⟨fun h => absurd hT (by rw [h]; exact Bool.noConfusion), fun _ => ?_⟩
    refine ⟨0, by rw [hL], ?_, ?_⟩
    · rw [hL]; simp [specConsecAt, List.range_succ]
    · rw [hL]; simp [runPoints, hBR]
  · have hA' : (e == a + 4) = false := by simp [hA]
    have h5F : specHasRun [a, b, c, d, e] 5 = false := by
      rw [specHasRun5_five]
      apply bool_eq_false_of_imp
      intro hx
      simp only [Bool.and_eq_true, beq_iff_eq] at hx
      omega
    by_cases hB : d = a + 3
    · have hb : b = a + 1 := by omega
      have hc : c = a + 2 := by omega
      subst hb; subst hc; subst hB
      have hT : specHasRun [a, a + 1, a + 2, a + 3, e] 3 = true := by
        rw [specHasRun3_five]; simp
      have hL : runLen [a, a + 1, a + 2, a + 3, e] = 4 := by
        have h4 : specHasRun [a, a + 1, a + 2, a + 3, e] 4 = true := by
          rw [specHasRun4_five]; simp
        simp [runLen, h5F, h4]
      have hBR : bestRunOf [a, a + 1, a + 2, a + 3, e] = some (4, 0) := by
        simp [bestRunOf, findRun5_five, findRun4_five, hA']
      refine ⟨fun h => absurd hT (by rw [h]; exact Bool.noConfusion), fun _ => ?_⟩
      refine ⟨0, by rw [hL]; omega, ?_, ?_⟩
      · rw [hL]; simp [specConsecAt, List.range_succ]
      · rw [hL]; simp [runPoints, hBR]
    · have hB' : (d == a + 3) = false := by simp [hB]
      by_cases hC : e = b + 3
      · have hc : c = b + 1 := by omega
        have hd : d = b + 2 := by omega
        subst hc; subst hd; subst hC
        have hT : specHasRun [a, b, b + 1, b + 2, b + 3] 3 = true := by
          rw [specHasRun3_five]; simp
        have hL : runLen [a, b, b + 1, b + 2, b + 3] = 4 := by
          have h4 : specHasRun [a, b, b + 1, b + 2, b + 3] 4 = true := by
            rw [specHasRun4_five]; simp
          simp [runLen, h5F, h4]
        have hBR : bestRunOf [a, b, b + 1, b + 2, b + 3] = some (4, 1) := by
          simp [bestRunOf, findRun5_five, findRun4_five, hA', hB']
        refine ⟨fun h => absurd hT (by rw [h]; exact Bool.noConfusion), fun _ => ?_⟩
        refine ⟨1, by rw [hL], ?_, ?_⟩
        · rw [hL]; simp [specConsecAt, List.range_succ]
        · rw [hL]; simp [runPoints, hBR]
      · have hC' : (e == b + 3) = false := by simp [hC]
        have h4F : specHasRun [a, b, c, d, e] 4 = false := by
          rw [specHasRun4_five]
          apply bool_eq_false_of_imp
          intro hx
          simp only [Bool.or_eq_true, Bool.and_eq_true, beq_iff_eq] at hx
          omega
        have hL : runLen [a, b, c, d, e] = 3 := by
          simp [runLen, h5F, h4F]
        by_cases hD : c = a + 2
        · have hb : b = a + 1 := by omega
          subst hb; subst hD
          have hT : specHasRun [a, a + 1, a + 2, d, e] 3 = true := by
            rw [specHasRun3_five]; simp
          have hBR : bestRunOf [a, a + 1, a + 2, d, e] = some (3, 0) := by
            simp [bestRunOf, findRun5_five, findRun4_five, findRun3_five, hA', hB', hC']
          refine ⟨fun h => absurd hT (by rw [h]; exact Bool.noConfusion), fun _ => ?_⟩
          refine ⟨0, by rw [hL]; omega, ?_, ?_⟩
          · rw [hL]; simp [specConsecAt, List.range_succ]
          · rw [hL]; simp [runPoints, hBR]
        · have hD' : (c == a + 2) = false := by simp [hD]
          by_cases hE : d = b + 2
          · have hc : c = b + 1 := by omega
            subst hc; subst hE
            have hT : specHasRun [a, b, b + 1, b + 2, e] 3 = true := by
              rw [specHasRun3_five]; simp
            have hBR : bestRunOf [a, b, b + 1, b + 2, e] = some (3, 1) := by
              simp [bestRunOf, findRun5_five, findRun4_five, findRun3_five, hA', hB', hC', hD']
            refine ⟨fun h => absurd hT (by rw [h]; exact Bool.noConfusion), fun _ => ?_⟩
            refine ⟨1, by rw [hL]; omega, ?_, ?_⟩
            · rw [hL]; simp [specConsecAt, List.range_succ]
            · rw [hL]; simp [runPoints, hBR]
          · have hE' : (d == b + 2) = false := by simp [hE]
            by_cases hF : e = c + 2
            · have hd : d = c + 1 := by omega
              subst hd; subst hF
              have hT : specHasRun [a, b, c, c + 1, c + 2] 3 = true := by
                rw [specHasRun3_five]; simp
              have hBR : bestRunOf [a, b, c, c + 1, c + 2] = some (3, 2) := by
                simp [bestRunOf, findRun5_five, findRun4_five, findRun3_five,
                  hA', hB', hC', hD', hE']
              refine ⟨fun h => absurd hT (by rw [h]; exact Bool.noConfusion), fun _ => ?_⟩
              refine ⟨2, by rw [hL], ?_, ?_⟩
              · rw [hL]; simp [specConsecAt, List.range_succ]
              · rw [hL]; simp [runPoints, hBR]
            · have hF' : (e == c + 2) = false := by simp [hF]
              have hT : specHasRun [a, b, c, d, e] 3 = false := by
                rw [specHasRun3_five]
                apply bool_eq_false_of_imp
                intro hx
                simp only [Bool.or_eq_true, Bool.and_eq_true, beq_iff_eq] at hx
                omega
              have hBR : bestRunOf [a, b, c, d, e] = none := by
                simp [bestRunOf, findRun5_five, findRun4_five, findRun3_five,
                  hA', hB', hC', hD', hE', hF']
              refine ⟨fun _ => by simp [runPoints, hBR],
                fun h => absurd hT (by rw [h]; exact Bool.noConfusion)⟩

theorem runPoints_window (rs : List Nat) (cnt : Nat → Nat)
    (hs : rs.Sorted (· < ·)) (hlen : rs.length ≤ 5) :
    (specHasRun rs 3 = false → runPoints rs cnt = 0) ∧
    (specHasRun rs 3 = true →
      ∃ i, i + runLen rs ≤ rs.length ∧ specConsecAt rs i (runLen rs) = true ∧
        runPoints rs cnt = runLen rs * (((rs.drop i).take (runLen rs)).map cnt).prod) := by
  rcases rs with - | ⟨a, - | ⟨b, - | ⟨c, - | ⟨d, - | ⟨e, rest⟩⟩⟩⟩⟩
  · exact ⟨fun _ => rfl, fun h => Bool.noConfusion h⟩
  · exact ⟨fun _ => rfl, fun h => Bool.noConfusion h⟩
  · exact ⟨fun _ => rfl, fun h => Bool.noConfusion h⟩
  · have hab : a < b := List.rel_of_sorted_cons hs b (by simp)
    have hbc : b < c := List.rel_of_sorted_cons hs.of_cons c (by simp)
    exact runPoints_three a b c cnt hab hbc
  · have hab : a < b := List.rel_of_sorted_cons hs b (by simp)
    have hbc : b < c := List.rel_of_sorted_cons hs.of_cons c (by simp)
    have hcd : c < d := List.rel_of_sorted_cons hs.of_cons.of_cons d (by simp)
    exact runPoints_four a b c d cnt hab hbc hcd
  · rcases rest with - | ⟨f, rest⟩
    · have hab : a < b := List.rel_of_sorted_cons hs b (by simp)
      have hbc : b < c := List.rel_of_sorted_cons hs.of_cons c (by simp)
      have hcd : c < d := List.rel_of_sorted_cons hs.of_cons.of_cons d (by simp)
      have hde : d < e := List.rel_of_sorted_cons hs.of_cons.of_cons.of_cons e (by simp)
      exact runPoints_five a b c d e cnt hab hbc hcd hde
    · simp only [List.length_cons] at hlen
      omega

theorem presentRanks_sorted (cs : List Card) : (presentRanks cs).Sorted (· < ·) := by
  have h : (List.range' 1 13).Sorted (· < ·) := by decide
  exact h.filter _

theorem presentRanks_length_le (cs : List Card) :
    (presentRanks cs).length ≤ cs.length := by
  have hnd : (presentRanks cs).Nodup :=
    (presentRanks_sorted cs).imp (fun h => Nat.ne_of_lt h)
  have hsub : presentRanks cs ⊆ numericRanks cs := by
    intro x hx
    simp only [presentRanks, List.mem_filter, decide_eq_true_eq] at hx
    exact hx.2
  calc (presentRanks cs).length ≤ (numericRanks cs).length := (hnd.subperm hsub).length_le
    _ = cs.length := by simp [numericRanks]

theorem rankGroup_length (cs : List Card) (r : Nat) :
    (rankGroup cs r).length = (numericRanks cs).count r := by
  induction cs with
  | nil => rfl
  | cons c rest ih =>
    simp only [rankGroup, numericRanks, List.map_cons, List.filter_cons, List.count_cons]
    by_cases h : getNumericRank c = r
    · simp only [h] at ih ⊢
      simpa [rankGroup, numericRanks] using ih
    · have h1 : (getNumericRank c == r) = false := by simp [h]
      have h2 : (r == getNumericRank c) = false := by simp [Ne.symm h]
      simp only [h1, h2, if_false]
      simpa [rankGroup, numericRanks] using ih

/-- C4: for every 5-card hand the runs evaluator succeeds; its points are 0
when no window of 3 or more consecutive distinct sequence values exists,
and otherwise there is a window of the preferred length (5 over 4 over 3)
such that the points equal that length times the product of the duplicate
counts of each rank value in the window. -/
theorem runs_longest_window (c0 c1 c2 c3 c4 : Card) :
    ∃ res, scoreRuns [some c0, some c1, some c2, some c3, some c4] = Except.ok res ∧
      (specHasRun (presentRanks [c0, c1, c2, c3, c4]) 3 = false → res.points = 0) ∧
      (specHasRun (presentRanks [c0, c1, c2, c3, c4]) 3 = true →
        ∃ i, i + runLen (presentRanks [c0, c1, c2, c3, c4]) ≤
              (presentRanks [c0, c1, c2, c3, c4]).length ∧
          specConsecAt (presentRanks [c0, c1, c2, c3, c4]) i
            (runLen (presentRanks [c0, c1, c2, c3, c4])) = true ∧
          res.points = runLen (presentRanks [c0, c1, c2, c3, c4]) *
            ((((presentRanks [c0, c1, c2, c3, c4]).drop i).take
                (runLen (presentRanks [c0, c1, c2, c3, c4]))).map
              (fun r => (numericRanks [c0, c1, c2, c3, c4]).count r)).prod) := by
  have hr := scoreRuns_map_some [c0, c1, c2, c3, c4] (by simp)
  have hmap : List.map some [c0, c1, c2, c3, c4] =
      [some c0, some c1, some c2, some c3, some c4] := rfl
  rw [hmap] at hr
  refine ⟨runsCore [c0, c1, c2, c3, c4], hr, ?_⟩
  have hfun : (fun r => (rankGroup [c0, c1, c2, c3, c4] r).length)
      = (fun r => (numericRanks [c0, c1, c2, c3, c4]).count r) := by
    funext r
    exact rankGroup_length _ r
  have hpts := runsCore_points [c0, c1, c2, c3, c4]
  rw [hfun] at hpts
  rw [hpts]
  exact runPoints_window (presentRanks [c0, c1, c2, c3, c4])
    (fun r => (numericRanks [c0, c1, c2, c3, c4]).count r)
    (presentRanks_sorted _) (le_trans (presentRanks_length_le _) (by simp))

/-- C4 witness: on the concrete hand A♠ 2♥ 3♦ 4♣ with cut 6♠ the runs
evaluator succeeds and the guaranteed window exists (the hypothesis that a
3-window exists is discharged by evaluation). -/
theorem runs_longest_window_witness :
    ∃ res, scoreRuns [some ⟨Rank.A, Suit.S⟩, some ⟨Rank.r2, Suit.H⟩, some ⟨Rank.r3, Suit.D⟩,
        some ⟨Rank.r4, Suit.C⟩, some ⟨Rank.r6, Suit.S⟩] = Except.ok res ∧
      ∃ i, i + runLen (presentRanks [⟨Rank.A, Suit.S⟩, ⟨Rank.r2, Suit.H⟩, ⟨Rank.r3, Suit.D⟩,
              ⟨Rank.r4, Suit.C⟩, ⟨Rank.r6, Suit.S⟩]) ≤
            (presentRanks [⟨Rank.A, Suit.S⟩, ⟨Rank.r2, Suit.H⟩, ⟨Rank.r3, Suit.D⟩,
              ⟨Rank.r4, Suit.C⟩, ⟨Rank.r6, Suit.S⟩]).length ∧
        specConsecAt (presentRanks [⟨Rank.A, Suit.S⟩, ⟨Rank.r2, Suit.H⟩, ⟨Rank.r3, Suit.D⟩,
              ⟨Rank.r4, Suit.C⟩, ⟨Rank.r6, Suit.S⟩]) i
            (runLen (presentRanks [⟨Rank.A, Suit.S⟩, ⟨Rank.r2, Suit.H⟩, ⟨Rank.r3, Suit.D⟩,
              ⟨Rank.r4, Suit.C⟩, ⟨Rank.r6, Suit.S⟩])) = true ∧
        res.points = runLen (presentRanks [⟨Rank.A, Suit.S⟩, ⟨Rank.r2, Suit.H⟩, ⟨Rank.r3, Suit.D⟩,
              ⟨Rank.r4, Suit.C⟩, ⟨Rank.r6, Suit.S⟩]) *
          ((((presentRanks [⟨Rank.A, Suit.S⟩, ⟨Rank.r2, Suit.H⟩, ⟨Rank.r3, Suit.D⟩,
                ⟨Rank.r4, Suit.C⟩, ⟨Rank.r6, Suit.S⟩]).drop i).take
              (runLen (presentRanks [⟨Rank.A, Suit.S⟩, ⟨Rank.r2, Suit.H⟩, ⟨Rank.r3, Suit.D⟩,
                ⟨Rank.r4, Suit.C⟩, ⟨Rank.r6, Suit.S⟩]))).map
            (fun r => (numericRanks [⟨Rank.A, Suit.S⟩, ⟨Rank.r2, Suit.H⟩, ⟨Rank.r3, Suit.D⟩,
                ⟨Rank.r4, Suit.C⟩, ⟨Rank.r6, Suit.S⟩]).count r)).prod := by
  obtain ⟨res, hok, -, hw⟩ := runs_longest_window ⟨Rank.A, Suit.S⟩ ⟨Rank.r2, Suit.H⟩
    ⟨Rank.r3, Suit.D⟩ ⟨Rank.r4, Suit.C⟩ ⟨Rank.r6, Suit.S⟩
  exact ⟨res, hok, hw (by decide)⟩
